import Mathlib

/-!
Verification of the MiniRDS GUI frontend and control-pipe reader.

Shallow embedding of the C sources:
* `src/src/minirds_gui.c` — sample packer (`float2char2channel`), engine
  thread loop (`engine_thread_proc`), engine shutdown (`stop_engine`),
  PS chunking and scrolling (`ps_chunk_text`, `ps_scroll_tick`),
  RT+ file processing (`process_rtp_file`), command files
  (`execute_command_file`).
* `src/unnamed/part_000` — control pipe reader (`poll_control_pipe`,
  Windows named-pipe and POSIX variants).

C byte buffers are modelled as `List Nat` (bytes) or `List Char`
(text), machine integers as `Int`/`Nat` with explicit `% 2^w` where
overflow matters, and IEEE floats as `ℚ` (exact arithmetic).

Functions of the repository that are not under `src/`
(`process_ascii_cmd` from ascii_cmd.c, the core setters `set_rds_ps`,
`set_rds_rtplus_tags`, `set_rds_rtplus_flags` from rds.c, and the
header constants `PS_LENGTH`, `RT_LENGTH`) are modelled from the spec,
as marked in their doc comments.
-/

namespace MiniRDS

/-- Modelled from the spec: `PS_LENGTH` from rds.h (not under src/);
spec §3 fixes `ps` at 8 glyphs. -/
def PS_LENGTH : Nat := 8

/-- Modelled from the spec: `RT_LENGTH` from rds.h (not under src/);
spec §3 fixes `rt` at 64 glyphs. -/
def RT_LENGTH : Nat := 64

/-! ## C1: the float→interleaved-int16 packer `float2char2channel`

Embeds minirds_gui.c lines 226-244.  The C source is

    sample = lroundf((inbuf[j] + inbuf[j+1]) * 16383.5f);
    lower = sample & 255;
    sample >>= 8;
    upper = sample & 255;
    outbuf[k+0] = lower; outbuf[k+1] = upper;
    outbuf[k+2] = lower; outbuf[k+3] = upper;

where `inbuf` holds interleaved 2-channel float frames and `sample`
is an `int16_t` (so an out-of-range `lroundf` result wraps mod 2^16).
-/

/-- C `lroundf`: round to nearest, ties away from zero. -/
def lroundQ (q : ℚ) : ℤ :=
  if 0 ≤ q then ⌊q + 1/2⌋ else -⌊-q + 1/2⌋

/-- Conversion of a (possibly out-of-range) integer to `int16_t`:
two's-complement wrap-around, no saturation. -/
def wrapInt16 (n : ℤ) : ℤ := (n + 32768) % 65536 - 32768

/-- The unsigned 16-bit pattern of an `int16_t` value. -/
def toU16 (s : ℤ) : ℕ := (s % 65536).toNat

/-- One frame of `float2char2channel`: both input channels are summed
and scaled by 16383.5, rounded, wrapped to `int16_t`, and the two
bytes are written twice (left channel then right channel), low byte
first. -/
def packFrame (l r : ℚ) : List ℕ :=
  let sample : ℤ := wrapInt16 (lroundQ ((l + r) * (32767/2 : ℚ)))
  let lower : ℕ := toU16 sample % 256
  let upper : ℕ := toU16 sample / 256 % 256
  [lower, upper, lower, upper]

/-- `float2char2channel` over a whole buffer of 2-channel frames. -/
def float2char2channel (frames : List (ℚ × ℚ)) : List ℕ :=
  frames.flatMap (fun p => packFrame p.1 p.2)

/-- Saturation of an integer to the `int16_t` range, as the spec's
"with saturation" describes the mapping. -/
def satInt16 (n : ℤ) : ℤ := max (-32768) (min 32767 n)

theorem lroundQ_le {q b : ℚ} (hb : q ≤ b) (hb0 : 0 ≤ b) (hq : -b ≤ q) :
    lroundQ q ≤ ⌊b + 1/2⌋ ∧ -⌊b + 1/2⌋ ≤ lroundQ q := by
  unfold lroundQ
  split
  · constructor
    · exact Int.floor_le_floor (by linarith)
    · have : (0:ℤ) ≤ ⌊q + 1/2⌋ := by
        apply Int.floor_nonneg.mpr; linarith
      have : (0:ℤ) ≤ ⌊b + 1/2⌋ := by
        apply Int.floor_nonneg.mpr; linarith
      omega
  · rename_i h
    push_neg at h
    constructor
    · have h1 : (0:ℤ) ≤ ⌊-q + 1/2⌋ := by
        apply Int.floor_nonneg.mpr; linarith
      have h2 : (0:ℤ) ≤ ⌊b + 1/2⌋ := by
        apply Int.floor_nonneg.mpr; linarith
      omega
    · have : ⌊-q + 1/2⌋ ≤ ⌊b + 1/2⌋ := Int.floor_le_floor (by linarith)
      omega

theorem wrapInt16_eq_self {s : ℤ} (h1 : -32768 ≤ s) (h2 : s ≤ 32767) :
    wrapInt16 s = s := by
  unfold wrapInt16
  have : (s + 32768) % 65536 = s + 32768 :=
    Int.emod_eq_of_lt (by omega) (by omega)
  omega

theorem satInt16_eq_self {s : ℤ} (h1 : -32768 ≤ s) (h2 : s ≤ 32767) :
    satInt16 s = s := by
  unfold satInt16; omega

theorem floor_32767_half : (⌊(32767 : ℚ) + 1/2⌋ : ℤ) = 32767 := by
  rw [Int.floor_eq_iff] <;> norm_num

theorem lroundQ_bounds {f : ℚ} (h1 : -1 ≤ f) (h2 : f ≤ 1) :
    -32767 ≤ lroundQ (f * 32767) ∧ lroundQ (f * 32767) ≤ 32767 := by
  have hb1 : f * 32767 ≤ 32767 := by nlinarith
  have hb2 : -(32767 : ℚ) ≤ f * 32767 := by nlinarith
  have h := lroundQ_le hb1 (by norm_num) hb2
  rw [floor_32767_half] at h
  exact ⟨h.2, h.1⟩

theorem packFrame_mono {f : ℚ} (h1 : -1 ≤ f) (h2 : f ≤ 1) :
    packFrame f f =
      [toU16 (satInt16 (lroundQ (f * 32767))) % 256,
       toU16 (satInt16 (lroundQ (f * 32767))) / 256 % 256,
       toU16 (satInt16 (lroundQ (f * 32767))) % 256,
       toU16 (satInt16 (lroundQ (f * 32767))) / 256 % 256] := by
  have harg : (f + f) * (32767/2 : ℚ) = f * 32767 := by ring
  have hb := lroundQ_bounds h1 h2
  unfold packFrame
  rw [harg, wrapInt16_eq_self (by omega) hb.2,
    satInt16_eq_self (by omega) hb.2]

/-- C1: for every frame whose two (identical, mono-duplicated) input
channels carry a float `f ∈ [-1, 1]`, the packer emits the int16
value `round(f · 32767)` (on which saturation is the identity),
duplicated onto both stereo channels, each as two little-endian
bytes (low byte at the lower offset). -/
theorem float2char2channel_mono_round_le_bytes (samples : List ℚ)
    (h : ∀ f ∈ samples, -1 ≤ f ∧ f ≤ 1) :
    float2char2channel (samples.map (fun f => (f, f))) =
      samples.flatMap (fun f =>
        [toU16 (satInt16 (lroundQ (f * 32767))) % 256,
         toU16 (satInt16 (lroundQ (f * 32767))) / 256 % 256,
         toU16 (satInt16 (lroundQ (f * 32767))) % 256,
         toU16 (satInt16 (lroundQ (f * 32767))) / 256 % 256]) := by
  induction samples with
  | nil => rfl
  | cons f fs ih =>
    have hf := h f (by simp)
    have hrest : ∀ g ∈ fs, -1 ≤ g ∧ g ≤ 1 := fun g hg => h g (by simp [hg])
    have step : float2char2channel (List.map (fun f => (f, f)) (f :: fs))
        = packFrame f f ++ float2char2channel (List.map (fun f => (f, f)) fs) := by
      simp [float2char2channel]
    rw [step, ih hrest, packFrame_mono hf.1 hf.2]
    simp [List.flatMap_cons]

/-- Witness for C1 at the concrete samples 1/2 and -1:
round(1/2·32767) = 16384 = 0x4000 and round(-1·32767) = -32767,
whose 16-bit pattern is 0x8001. -/
theorem float2char2channel_mono_round_le_bytes_witness :
    float2char2channel [((1:ℚ)/2, 1/2), (-1, -1)] =
      [0, 64, 0, 64, 1, 128, 1, 128] := by
  have h := float2char2channel_mono_round_le_bytes [(1:ℚ)/2, -1]
    (by intro f hf; simp at hf; rcases hf with h | h <;> rw [h] <;>
      constructor <;> norm_num)
  simp only [List.map_cons, List.map_nil] at h
  rw [h]
  have e1 : lroundQ ((1:ℚ)/2 * 32767) = 16384 := by
    unfold lroundQ
    rw [if_pos (by norm_num)]
    rw [Int.floor_eq_iff] <;> norm_num
  have e2 : lroundQ ((-1:ℚ) * 32767) = -32767 := by
    unfold lroundQ
    rw [if_neg (by norm_num)]
    have : ⌊-((-1:ℚ) * 32767) + 1/2⌋ = 32767 := by
      rw [Int.floor_eq_iff] <;> norm_num
    omega
  simp only [List.flatMap_cons, List.flatMap_nil, e1, e2]
  norm_num [satInt16, toU16]
  decide

/-! ## C2 / C4: the engine thread loop and shutdown

Embeds minirds_gui.c lines 858-896 (`engine_thread_proc`, main
generation loop and teardown) and 951-970 (`stop_engine`).  The loop is

    while (!g_stop_engine) {
        fm_rds_get_frames(mpx_buffer, NUM_MPX_FRAMES_IN);
        if (resample(src_state, src_data, &frames) < 0) { log; break; }
        if (frames == 0) continue;
        float2char2channel(out_buffer, dev_out, frames);
        if (!ao_play(device, dev_out, ...)) { log; break; }
        loop_count++;
    }
    if (src_state) resampler_exit(src_state);
    if (device) ao_close(device);

The environment of one iteration (the atomic stop flag read at the
loop head, the resampler's result, the sink write's result) is a
record; a run is driven by a finite trace of such records.
-/

/-- The environment of one generator iteration: the value the atomic
`g_stop_engine` flag has when the loop head reads it, whether
`resample` succeeds, how many frames it produces, and whether
`ao_play` succeeds. -/
structure IterIn where
  stop : Bool
  resampleOk : Bool
  frames : Nat
  playOk : Bool
deriving DecidableEq

/-- Observable events of the engine thread. -/
inductive EngineEv
  | checkStop (v : Bool)
  | getFrames
  | resample
  | logResampleError
  | pack
  | play
  | logPlayError
  | releaseResampler
  | closeSink
deriving DecidableEq

/-- The engine loop, driven by a finite trace of iteration
environments.  Each loop entry reads the stop flag exactly once; a
set flag ends the loop, a resampler error or sink-write error breaks
out of it, `frames == 0` continues with the next iteration. -/
def engineIters : List IterIn → List EngineEv
  | [] => []
  | it :: rest =>
    EngineEv.checkStop it.stop ::
      (if it.stop then []
       else EngineEv.getFrames :: EngineEv.resample ::
         (if it.resampleOk = false then [EngineEv.logResampleError]
          else if it.frames = 0 then engineIters rest
          else EngineEv.pack :: EngineEv.play ::
            (if it.playOk then engineIters rest
             else [EngineEv.logPlayError])))

/-- `engine_thread_proc` after resampler setup: the loop followed by
the unconditional teardown `resampler_exit` then `ao_close`. -/
def engine_thread_proc (trace : List IterIn) : List EngineEv :=
  engineIters trace ++ [EngineEv.releaseResampler, EngineEv.closeSink]

/-- An iteration on which the loop neither stops nor fails. -/
def normalIter (it : IterIn) : Prop :=
  it.stop = false ∧ it.resampleOk = true ∧ it.playOk = true

instance (it : IterIn) : Decidable (normalIter it) := by
  unfold normalIter; infer_instance

/-- The events a normal iteration contributes. -/
def iterEvs (it : IterIn) : List EngineEv :=
  EngineEv.checkStop false :: EngineEv.getFrames :: EngineEv.resample ::
    (if it.frames = 0 then [] else [EngineEv.pack, EngineEv.play])

theorem engineIters_cons_normal {it : IterIn} (h : normalIter it)
    (rest : List IterIn) :
    engineIters (it :: rest) = iterEvs it ++ engineIters rest := by
  obtain ⟨h1, h2, h3⟩ := h
  simp only [engineIters, iterEvs, h1, h2, h3]
  by_cases hf : it.frames = 0 <;> simp [hf]

theorem engineIters_normal_append (pre : List IterIn)
    (hpre : ∀ it ∈ pre, normalIter it) (rest : List IterIn) :
    engineIters (pre ++ rest) = pre.flatMap iterEvs ++ engineIters rest := by
  induction pre with
  | nil => simp
  | cons it pre ih =>
    rw [List.cons_append, engineIters_cons_normal (hpre it (by simp)),
      ih (fun x hx => hpre x (by simp [hx]))]
    simp

/-- C2: if the sink's blocking write (`ao_play`) returns an error at
some iteration, the loop logs the error and exits at that iteration —
the rest of the trace is never consumed — and the engine then
releases the resampler and the sink. -/
theorem engine_sink_error_clean_exit (pre rest : List IterIn)
    (bad : IterIn) (hpre : ∀ it ∈ pre, normalIter it)
    (hstop : bad.stop = false) (hres : bad.resampleOk = true)
    (hfr : bad.frames ≠ 0) (hplay : bad.playOk = false) :
    engine_thread_proc (pre ++ bad :: rest) =
      pre.flatMap iterEvs ++
        [EngineEv.checkStop false, EngineEv.getFrames, EngineEv.resample,
         EngineEv.pack, EngineEv.play, EngineEv.logPlayError,
         EngineEv.releaseResampler, EngineEv.closeSink] := by
  unfold engine_thread_proc
  rw [engineIters_normal_append pre hpre]
  simp [engineIters, hstop, hres, hfr, hplay]

/-- Witness for C2: a trace of one normal iteration followed by a
failing sink write. -/
theorem engine_sink_error_clean_exit_witness :
    engine_thread_proc
        [⟨false, true, 4, true⟩, ⟨false, true, 4, false⟩] =
      [EngineEv.checkStop false, EngineEv.getFrames, EngineEv.resample,
       EngineEv.pack, EngineEv.play,
       EngineEv.checkStop false, EngineEv.getFrames, EngineEv.resample,
       EngineEv.pack, EngineEv.play, EngineEv.logPlayError,
       EngineEv.releaseResampler, EngineEv.closeSink] := by
  have h := engine_sink_error_clean_exit [⟨false, true, 4, true⟩] []
    ⟨false, true, 4, false⟩ (by decide) rfl rfl (by decide) rfl
  simpa [iterEvs] using h

/-- The join timeout `stop_engine` passes to `WaitForSingleObject`
(minirds_gui.c line 961), in milliseconds. -/
def stop_engine_join_timeout_ms : Nat := 5000

/-- Counts the stop-flag reads in an event list. -/
def countChecks (evs : List EngineEv) : Nat :=
  evs.countP (fun e => match e with | EngineEv.checkStop _ => true | _ => false)

/-- Counts the iteration bodies (pipeline fills) in an event list. -/
def countBodies (evs : List EngineEv) : Nat :=
  evs.countP (fun e => match e with | EngineEv.getFrames => true | _ => false)

theorem counts_flatMap_iterEvs (pre : List IterIn) :
    countChecks (pre.flatMap iterEvs) = pre.length ∧
    countBodies (pre.flatMap iterEvs) = pre.length := by
  induction pre with
  | nil => constructor <;> rfl
  | cons it pre ih =>
    unfold countChecks countBodies at ih ⊢
    by_cases hf : it.frames = 0 <;>
      simp [iterEvs, hf, List.countP_cons, ih.1, ih.2]

/-- C4: the stop flag is read exactly once per iteration (over a run
of `n` completed iterations and a final observation of the set flag,
`n + 1` reads and `n` pipeline fills happen); once the flag is
observed set, the loop body never runs again — the remainder of the
trace is not consumed — and the engine releases the resampler and the
sink; the controlling thread's join timeout is the bounded constant
5000 ms. -/
theorem engine_stop_flag_once_per_iter (pre rest : List IterIn)
    (s : IterIn) (hpre : ∀ it ∈ pre, normalIter it)
    (hs : s.stop = true) :
    engine_thread_proc (pre ++ s :: rest) =
      pre.flatMap iterEvs ++
        [EngineEv.checkStop true,
         EngineEv.releaseResampler, EngineEv.closeSink] ∧
    countChecks (engine_thread_proc (pre ++ s :: rest)) =
      pre.length + 1 ∧
    countBodies (engine_thread_proc (pre ++ s :: rest)) = pre.length ∧
    stop_engine_join_timeout_ms = 5000 ∧
    stop_engine_join_timeout_ms ≤ 10000 := by
  have hmain : engine_thread_proc (pre ++ s :: rest) =
      pre.flatMap iterEvs ++
        [EngineEv.checkStop true,
         EngineEv.releaseResampler, EngineEv.closeSink] := by
    unfold engine_thread_proc
    rw [engineIters_normal_append pre hpre]
    simp [engineIters, hs]
  refine ⟨hmain, ?_, ?_, rfl, by decide⟩
  · rw [hmain]
    unfold countChecks
    have := (counts_flatMap_iterEvs pre).1
    unfold countChecks at this
    simp [List.countP_append, this]
  · rw [hmain]
    unfold countBodies
    have := (counts_flatMap_iterEvs pre).2
    unfold countBodies at this
    simp [List.countP_append, this]

/-- Witness for C4: one normal iteration, then the stop flag is seen
set; a further (never-consumed) trace entry follows. -/
theorem engine_stop_flag_once_per_iter_witness :
    engine_thread_proc
        [⟨false, true, 4, true⟩, ⟨true, true, 4, true⟩,
         ⟨false, true, 4, true⟩] =
      [EngineEv.checkStop false, EngineEv.getFrames, EngineEv.resample,
       EngineEv.pack, EngineEv.play, EngineEv.checkStop true,
       EngineEv.releaseResampler, EngineEv.closeSink] := by
  have h := engine_stop_flag_once_per_iter [⟨false, true, 4, true⟩]
    [⟨false, true, 4, true⟩] ⟨true, true, 4, true⟩ (by decide) rfl
  have h1 := h.1
  simpa [iterEvs] using h1

/-! ## C9: buffer discipline of `poll_control_pipe`

Embeds part_000 lines 63-110 (Windows) and 147-184 (POSIX).  Both
variants zero a `CTL_BUFFER_SIZE` buffer, read at most
`CTL_BUFFER_SIZE - 1` bytes into it, tokenize the resulting C string
with `strtok(buf, "\n")`, and for each token zero a
`CMD_BUFFER_SIZE` command buffer and `memcpy` `CMD_BUFFER_SIZE - 1`
bytes from the token's position before handing the command buffer to
`process_ascii_cmd`.  `strtok` NUL-terminates each token, so the C
string `process_ascii_cmd` sees is the token truncated to
`CMD_BUFFER_SIZE - 1` bytes.  The buffer sizes live in headers that
are not under src/, so they stay parameters here. -/

/-- The C string held in a byte buffer: the bytes before the first
NUL. -/
def cStringBytes (buf : List Nat) : List Nat := buf.takeWhile (· ≠ 0)

/-- The tokens `strtok(buf, "\n")` yields: maximal nonempty runs
between newline bytes (blank lines yield no token). -/
def pipeTokens (s : List Nat) : List (List Nat) :=
  (s.splitOn 10).filter (· ≠ [])

/-- The command buffer built for one token: zeroed to
`CMD_BUFFER_SIZE` bytes, then `CMD_BUFFER_SIZE - 1` bytes copied from
the token's position (bytes past the token's terminating NUL cannot
reach the extracted C string). -/
def cmdBufFor (CMD : Nat) (token : List Nat) : List Nat :=
  token.take (CMD - 1) ++
    List.replicate (CMD - (token.take (CMD - 1)).length) 0

/-- The C string `process_ascii_cmd` receives for one token. -/
def handedCmd (CMD : Nat) (token : List Nat) : List Nat :=
  cStringBytes (cmdBufFor CMD token)

/-- One poll: at most `CTL - 1` bytes land in the zeroed pipe buffer,
its C string is tokenized, and each token is handed over through a
command buffer. -/
def poll_handed_cmds (CTL CMD : Nat) (raw : List Nat) :
    List (List Nat) :=
  (pipeTokens (cStringBytes (raw.take (CTL - 1)))).map (handedCmd CMD)

theorem mem_of_mem_splitOnP {α : Type} [DecidableEq α] {p : α → Bool} :
    ∀ {s t : List α}, t ∈ s.splitOnP p → ∀ {a}, a ∈ t → a ∈ s := by
  intro s
  induction s with
  | nil =>
    intro t ht a ha
    simp [List.splitOnP_nil] at ht
    subst ht; simp at ha
  | cons x xs ih =>
    intro t ht a ha
    rw [List.splitOnP_cons] at ht
    by_cases hx : p x = true
    · rw [if_pos hx] at ht
      rcases List.mem_cons.mp ht with h | h
      · subst h; simp at ha
      · exact List.mem_cons_of_mem _ (ih h ha)
    · rw [if_neg hx] at ht
      obtain ⟨y, ys, hyy⟩ :=
        List.exists_cons_of_ne_nil (List.splitOnP_ne_nil p xs)
      rw [hyy] at ht
      simp only [List.modifyHead, List.mem_cons] at ht
      rcases ht with h | h
      · subst h
        rcases List.mem_cons.mp ha with h' | h'
        · subst h'; exact List.mem_cons_self _ _
        · exact List.mem_cons_of_mem _
            (ih (hyy ▸ List.mem_cons_self y ys) h')
      · exact List.mem_cons_of_mem _
          (ih (hyy ▸ List.mem_cons_of_mem y h) ha)

theorem pipeTokens_no_nul {s : List Nat} (hs : (0:Nat) ∉ s) :
    ∀ t ∈ pipeTokens s, (0:Nat) ∉ t := by
  intro t ht h0
  have ht' : t ∈ s.splitOn 10 := (List.mem_filter.mp ht).1
  rw [List.splitOn] at ht'
  exact hs (mem_of_mem_splitOnP ht' h0)

theorem handedCmd_of_no_nul {CMD : Nat} {token : List Nat}
    (h : (0:Nat) ∉ token) :
    handedCmd CMD token = token.take (CMD - 1) := by
  unfold handedCmd cmdBufFor cStringBytes
  rw [List.takeWhile_append]
  have hself : (token.take (CMD - 1)).takeWhile (fun a => decide (a ≠ 0))
      = token.take (CMD - 1) := by
    rw [List.takeWhile_eq_self_iff]
    intro a ha
    rw [decide_eq_true_eq]
    intro h0
    exact h (h0 ▸ List.mem_of_mem_take ha)
  rw [hself, if_pos rfl]
  cases hk : CMD - (token.take (CMD - 1)).length with
  | zero => simp
  | succ k => simp [List.replicate_succ]

/-- C9: with a positive `CMD_BUFFER_SIZE`, every command string the
control-pipe reader hands to `process_ascii_cmd` is the token
truncated to at most `CMD_BUFFER_SIZE - 1` bytes, contains no NUL,
and sits in a command buffer of exactly `CMD_BUFFER_SIZE` bytes whose
byte right after the string is NUL — over-long lines are truncated,
never overflowed. -/
theorem poll_handed_cmds_safe (CTL CMD : Nat) (raw : List Nat)
    (hCMD : 1 ≤ CMD) :
    ∀ c ∈ poll_handed_cmds CTL CMD raw,
      c.length ≤ CMD - 1 ∧ (0:Nat) ∉ c ∧
      ∃ token ∈ pipeTokens (cStringBytes (raw.take (CTL - 1))),
        c = token.take (CMD - 1) ∧
        (cmdBufFor CMD token).length = CMD ∧
        (cmdBufFor CMD token)[c.length]? = some 0 := by
  intro c hc
  obtain ⟨token, htok, rfl⟩ := List.mem_map.mp hc
  have hnul : (0:Nat) ∉ token := by
    apply pipeTokens_no_nul _ _ htok
    intro h0
    have := List.mem_takeWhile_imp h0
    simp at this
  have heq : handedCmd CMD token = token.take (CMD - 1) :=
    handedCmd_of_no_nul hnul
  have hlen : (token.take (CMD - 1)).length ≤ CMD - 1 := by
    simp [List.length_take]
  have hbuf : (cmdBufFor CMD token).length = CMD := by
    unfold cmdBufFor
    simp only [List.length_append, List.length_replicate]
    omega
  refine ⟨heq ▸ hlen, ?_, token, htok, heq, hbuf, ?_⟩
  · rw [heq]
    intro h0
    exact hnul (List.mem_of_mem_take h0)
  · rw [heq]
    unfold cmdBufFor
    rw [List.getElem?_append_right (le_refl _)]
    rw [Nat.sub_self, List.getElem?_replicate]
    rw [if_pos
      (show 0 < CMD - (token.take (CMD - 1)).length by omega)]

/-- Witness for C9 at `CTL = 8`, `CMD = 4` and the raw payload
"PS AB\nX" (bytes), whose first token "PS AB" is truncated to
"PS " (3 bytes). -/
theorem poll_handed_cmds_safe_witness :
    ([80, 83, 32] : List Nat) ∈
      poll_handed_cmds 8 4 [80, 83, 32, 65, 66, 10, 88] ∧
    ([80, 83, 32] : List Nat).length ≤ 4 - 1 ∧
    (0:Nat) ∉ ([80, 83, 32] : List Nat) := by
  have hmem : ([80, 83, 32] : List Nat) ∈
      poll_handed_cmds 8 4 [80, 83, 32, 65, 66, 10, 88] := by decide
  have h := poll_handed_cmds_safe 8 4 [80, 83, 32, 65, 66, 10, 88]
    (by decide) [80, 83, 32] hmem
  exact ⟨hmem, h.1, h.2.1⟩

/-! ## C3: control-transport read errors and EOF

Embeds part_000 lines 63-110 (Windows `poll_control_pipe`) and
147-184 (POSIX `poll_control_pipe`).  The Windows variant, on
`ERROR_BROKEN_PIPE` or a zero-byte read, runs
`DisconnectNamedPipe; ResetEvent; ConnectNamedPipe` and returns.  The
POSIX variant ignores the result of `read`: on an error or EOF the
zeroed buffer yields no tokens and the function simply returns —
there is no call that re-opens the descriptor.  Neither variant has
any path that stops the generator. -/

/-- Actions the control reader can take (the alphabet includes the
re-open and generator-stop actions so their absence is expressible). -/
inductive CtlEv
  | disconnectPipe
  | resetEvent
  | connectPipe
  | reopenPipe
  | runCmd (line : List Nat)
  | stopGenerator
deriving DecidableEq

/-- Outcome of one Windows poll: wait timeout, `ReadFile` failing
with `ERROR_BROKEN_PIPE`, failing with another error, or delivering
`bytes` (zero-length on client disconnect). -/
inductive WinRead
  | timeout
  | brokenPipe
  | otherError
  | data (bytes : List Nat)
deriving DecidableEq

/-- The Windows `poll_control_pipe` body. -/
def poll_control_pipe_win (CTL CMD : Nat) : WinRead → List CtlEv
  | WinRead.timeout => []
  | WinRead.brokenPipe =>
      [CtlEv.disconnectPipe, CtlEv.resetEvent, CtlEv.connectPipe]
  | WinRead.otherError => []
  | WinRead.data bytes =>
      if bytes.length = 0 then
        [CtlEv.disconnectPipe, CtlEv.resetEvent, CtlEv.connectPipe]
      else (poll_handed_cmds CTL CMD bytes).map CtlEv.runCmd

/-- Outcome of one POSIX poll: `poll` timing out, no revents,
`select` failing or timing out, `read` returning an error, `read`
returning 0 (EOF), or `read` delivering `bytes`. -/
inductive PosixRead
  | pollTimeout
  | noRevents
  | selectFail
  | readError
  | eof
  | data (bytes : List Nat)
deriving DecidableEq

/-- The POSIX `poll_control_pipe` body.  On `readError` and `eof` the
pipe buffer keeps only the zeros of the preceding `memset`, so
tokenization yields nothing and the function returns without any
descriptor action. -/
def poll_control_pipe_posix (CTL CMD : Nat) : PosixRead → List CtlEv
  | PosixRead.pollTimeout => []
  | PosixRead.noRevents => []
  | PosixRead.selectFail => []
  | PosixRead.readError => (poll_handed_cmds CTL CMD []).map CtlEv.runCmd
  | PosixRead.eof => (poll_handed_cmds CTL CMD []).map CtlEv.runCmd
  | PosixRead.data bytes =>
      (poll_handed_cmds CTL CMD bytes).map CtlEv.runCmd

/-- Counterexample to C3 as stated: on POSIX, an end-of-file poll
performs no action at all — in particular it does not re-open the
pipe (and a read error likewise re-opens nothing). -/
theorem poll_posix_eof_does_not_reopen :
    poll_control_pipe_posix 256 256 PosixRead.eof = [] ∧
    CtlEv.reopenPipe ∉ poll_control_pipe_posix 256 256 PosixRead.eof ∧
    CtlEv.reopenPipe ∉
      poll_control_pipe_posix 256 256 PosixRead.readError := by
  refine ⟨rfl, ?_, ?_⟩ <;> simp [poll_control_pipe_posix]

/-- C3 (amended): on Windows a broken pipe or zero-byte read
disconnects the named pipe and re-awaits a client; on POSIX a read
error or EOF leaves the descriptor as it is and the poll returns
having processed nothing; in no case does either reader stop the
generator. -/
theorem poll_reconnect_behaviour (CTL CMD : Nat) :
    poll_control_pipe_win CTL CMD WinRead.brokenPipe =
      [CtlEv.disconnectPipe, CtlEv.resetEvent, CtlEv.connectPipe] ∧
    poll_control_pipe_win CTL CMD (WinRead.data []) =
      [CtlEv.disconnectPipe, CtlEv.resetEvent, CtlEv.connectPipe] ∧
    poll_control_pipe_posix CTL CMD PosixRead.eof = [] ∧
    poll_control_pipe_posix CTL CMD PosixRead.readError = [] ∧
    (∀ r, CtlEv.stopGenerator ∉ poll_control_pipe_win CTL CMD r) ∧
    (∀ r, CtlEv.stopGenerator ∉ poll_control_pipe_posix CTL CMD r) ∧
    (∀ r, CtlEv.reopenPipe ∉ poll_control_pipe_posix CTL CMD r) := by
  have hnil : poll_handed_cmds CTL CMD [] = [] := by
    simp [poll_handed_cmds, cStringBytes, pipeTokens]
  refine ⟨rfl, rfl, ?_, ?_, ?_, ?_, ?_⟩
  · simp [poll_control_pipe_posix, hnil]
  · simp [poll_control_pipe_posix, hnil]
  · intro r
    cases r with
    | data bytes =>
      simp only [poll_control_pipe_win]
      by_cases hb : bytes.length = 0
      · simp [hb]
      · simp [hb]
    | timeout => simp [poll_control_pipe_win]
    | brokenPipe => simp [poll_control_pipe_win]
    | otherError => simp [poll_control_pipe_win]
  · intro r
    cases r <;> simp [poll_control_pipe_posix]
  · intro r
    cases r <;> simp [poll_control_pipe_posix]

/-- Witness for the amended C3 at concrete buffer sizes and a
concrete successful read. -/
theorem poll_reconnect_behaviour_witness :
    poll_control_pipe_win 256 256 WinRead.brokenPipe =
      [CtlEv.disconnectPipe, CtlEv.resetEvent, CtlEv.connectPipe] ∧
    CtlEv.stopGenerator ∉
      poll_control_pipe_win 256 256 (WinRead.data [80, 73, 10]) ∧
    CtlEv.stopGenerator ∉
      poll_control_pipe_posix 256 256 (PosixRead.data [80, 73, 10]) :=
  ⟨(poll_reconnect_behaviour 256 256).1,
   (poll_reconnect_behaviour 256 256).2.2.2.2.1 (WinRead.data [80, 73, 10]),
   (poll_reconnect_behaviour 256 256).2.2.2.2.2.1 (PosixRead.data [80, 73, 10])⟩

/-! ## C5 / C6: line framing and per-line command application

The `\n` tokenization is the `strtok` loop of part_000 lines 175-184
(blank lines yield no token, each token is truncated to
`CMD_BUFFER_SIZE - 1` bytes).  `process_ascii_cmd` itself lives in
ascii_cmd.c, which is not under src/, so it is modelled from the
spec below.  Command text is modelled as `List Char`. -/

/-- The RDS parameters a command can touch (a representative part of
the Program Information store of spec §3). -/
structure RdsState where
  ps : List Char
  rt : List Char
  pty : Nat
  ta : Bool
  rtplusTags : List Nat
  rtplusFlags : Nat
deriving DecidableEq

/-- Fixed-width pad: truncate to `n` glyphs and right-pad with
spaces. -/
def padTo (n : Nat) (l : List Char) : List Char :=
  l.take n ++ List.replicate (n - (l.take n).length) ' '

/-- Parsed control commands (the subset of spec §4.H this
development needs). -/
inductive Cmd
  | setPS (t : List Char)
  | setRT (t : List Char)
  | setPTY (n : Nat)
  | setTA (b : Bool)
deriving DecidableEq

/-- ASCII upper-casing, as C `toupper` in the C locale. -/
def asciiUpper (c : Char) : Char :=
  if 'a' ≤ c ∧ c ≤ 'z' then Char.ofNat (c.toNat - 32) else c

/-- Decimal number parsing: all characters must be digits. -/
def parseNatDigits (l : List Char) : Option Nat :=
  if l ≠ [] ∧ l.all (fun c => decide ('0' ≤ c ∧ c ≤ '9')) then
    some (l.foldl (fun acc c => acc * 10 + (c.toNat - '0'.toNat)) 0)
  else none

/-- Modelled from the spec: the command grammar of §4.H —
`CMD ARG…`, case-insensitive command word, rest-of-line argument,
out-of-range values rejected (`PS` 1..8 chars, `RT` 0..64 chars,
`PTY` 0..31, `TP`-style flags `ON|OFF|1|0`). -/
def parseCmdLine (l : List Char) : Option Cmd :=
  let w := (l.takeWhile (· ≠ ' ')).map asciiUpper
  let arg := (l.dropWhile (· ≠ ' ')).drop 1
  if w = ['P', 'S'] then
    if 1 ≤ arg.length ∧ arg.length ≤ 8 then some (Cmd.setPS arg) else none
  else if w = ['R', 'T'] then
    if arg.length ≤ 64 then some (Cmd.setRT arg) else none
  else if w = ['P', 'T', 'Y'] then
    match parseNatDigits arg with
    | some n => if n ≤ 31 then some (Cmd.setPTY n) else none
    | none => none
  else if w = ['T', 'A'] then
    if arg.map asciiUpper = ['O', 'N'] ∨ arg = ['1'] then
      some (Cmd.setTA true)
    else if arg.map asciiUpper = ['O', 'F', 'F'] ∨ arg = ['0'] then
      some (Cmd.setTA false)
    else none
  else none

/-- Applying one parsed command to the store (spec §4.D: setters pad
to the fixed widths). -/
def applyCmd (st : RdsState) : Cmd → RdsState
  | Cmd.setPS t => { st with ps := padTo PS_LENGTH t }
  | Cmd.setRT t => { st with rt := padTo RT_LENGTH t }
  | Cmd.setPTY n => { st with pty := n }
  | Cmd.setTA b => { st with ta := b }

/-- Strips one trailing carriage return, tolerating `\r\n` framing. -/
def stripCR (l : List Char) : List Char :=
  if l.getLast? = some '\r' then l.dropLast else l

/-- Modelled from the spec: `process_ascii_cmd` (ascii_cmd.c is not
under src/).  Per §4.H and §6: tolerates a trailing `\r`, ignores
blank lines and lines beginning with `#`, and on a parse error logs
and drops the line, leaving the store unchanged. -/
def process_ascii_cmd (st : RdsState) (line : List Char) : RdsState :=
  let l := stripCR line
  if l = [] then st
  else if l.head? = some '#' then st
  else
    match parseCmdLine l with
    | none => st
    | some c => applyCmd st c

/-- The `strtok(buf, "\n")` tokens of a textual payload. -/
def lineTokens (payload : List Char) : List (List Char) :=
  (payload.splitOn '\n').filter (· ≠ [])

/-- The control reader's handling of one inbound payload: each token,
truncated to `CMD_BUFFER_SIZE - 1` bytes, is fed to
`process_ascii_cmd` in textual order. -/
def poll_process_payload (CMD : Nat) (st : RdsState)
    (payload : List Char) : RdsState :=
  (lineTokens payload).foldl
    (fun s t => process_ascii_cmd s (t.take (CMD - 1))) st

theorem process_ascii_cmd_nil (st : RdsState) :
    process_ascii_cmd st [] = st := rfl

theorem process_ascii_cmd_hash (st : RdsState) (cs : List Char) :
    process_ascii_cmd st ('#' :: cs) = st := by
  unfold process_ascii_cmd stripCR
  by_cases hl : ('#' :: cs).getLast? = some '\r'
  · rw [if_pos hl]
    cases cs with
    | nil => simp at hl
    | cons d ds =>
      have hdl : ('#' :: d :: ds).dropLast = '#' :: (d :: ds).dropLast :=
        rfl
      rw [hdl]
      simp
  · rw [if_neg hl]
    simp

theorem process_ascii_cmd_strip_cr (st : RdsState) (l : List Char)
    (h : l.getLast? ≠ some '\r') :
    process_ascii_cmd st (l ++ ['\r']) = process_ascii_cmd st l := by
  have h1 : stripCR (l ++ ['\r']) = l := by
    unfold stripCR
    rw [if_pos (by simp), List.dropLast_concat]
  have h2 : stripCR l = l := by
    unfold stripCR
    rw [if_neg h]
  unfold process_ascii_cmd
  rw [h1, h2]

theorem foldl_process_filter (CMD : Nat) (st : RdsState)
    (ls : List (List Char)) :
    (ls.filter (· ≠ [])).foldl
        (fun s t => process_ascii_cmd s (t.take (CMD - 1))) st =
      ls.foldl (fun s t => process_ascii_cmd s (t.take (CMD - 1))) st := by
  induction ls generalizing st with
  | nil => rfl
  | cons t ts ih =>
    rw [List.filter_cons]
    by_cases ht : t = []
    · subst ht
      rw [if_neg (by simp)]
      rw [List.foldl_cons]
      have h0 : process_ascii_cmd st (([] : List Char).take (CMD - 1))
          = st := by
        simp [process_ascii_cmd_nil]
      rw [h0, ih]
    · rw [if_pos (by simp [ht])]
      rw [List.foldl_cons, List.foldl_cons, ih]

theorem foldl_take_eq (CMD : Nat) (st : RdsState) (ls : List (List Char))
    (hlen : ∀ l ∈ ls, l.length ≤ CMD - 1) :
    ls.foldl (fun s t => process_ascii_cmd s (t.take (CMD - 1))) st =
      ls.foldl process_ascii_cmd st := by
  induction ls generalizing st with
  | nil => rfl
  | cons t ts ih =>
    rw [List.foldl_cons, List.foldl_cons,
      List.take_of_length_le (hlen t (by simp))]
    exact ih _ (fun l hl => hlen l (by simp [hl]))

/-- C5: the control reader is line-oriented — a payload that is lines
joined by `\n` is processed line by line; blank lines change nothing,
lines beginning with `#` change nothing, and a trailing `\r` (from
`\r\n` framing) does not change how a command line is interpreted. -/
theorem control_line_framing (CMD : Nat) (st : RdsState)
    (ls : List (List Char)) (hnl : ∀ l ∈ ls, '\n' ∉ l) (hls : ls ≠ [])
    (hlen : ∀ l ∈ ls, l.length ≤ CMD - 1) :
    poll_process_payload CMD st (['\n'].intercalate ls) =
      ls.foldl process_ascii_cmd st ∧
    (∀ st' : RdsState, process_ascii_cmd st' [] = st') ∧
    (∀ (st' : RdsState) (cs : List Char),
      process_ascii_cmd st' ('#' :: cs) = st') ∧
    (∀ (st' : RdsState) (l : List Char), l.getLast? ≠ some '\r' →
      process_ascii_cmd st' (l ++ ['\r']) = process_ascii_cmd st' l) := by
  refine ⟨?_, process_ascii_cmd_nil, process_ascii_cmd_hash,
    process_ascii_cmd_strip_cr⟩
  unfold poll_process_payload lineTokens
  rw [List.splitOn_intercalate ls '\n' hnl hls, foldl_process_filter,
    foldl_take_eq CMD st ls hlen]

/-- Witness for C5: a three-line payload — a PS command, a blank
line, a comment line — joined with `\n`. -/
theorem control_line_framing_witness :
    poll_process_payload 255
        ⟨[], [], 0, false, [], 0⟩
        (['\n'].intercalate [['P', 'S', ' ', 'H', 'i'], [], ['#', 'x']]) =
      [['P', 'S', ' ', 'H', 'i'], [], ['#', 'x']].foldl process_ascii_cmd
        ⟨[], [], 0, false, [], 0⟩ :=
  (control_line_framing 255 ⟨[], [], 0, false, [], 0⟩
    [['P', 'S', ' ', 'H', 'i'], [], ['#', 'x']]
    (by decide) (by decide) (by decide)).1

/-- The effect one token has: `none` when the (truncated, `\r`-
stripped) line is blank, a comment, or fails to parse; otherwise the
parsed command. -/
def lineEffect (CMD : Nat) (t : List Char) : Option Cmd :=
  let l := stripCR (t.take (CMD - 1))
  if l = [] ∨ l.head? = some '#' then none else parseCmdLine l

theorem process_ascii_cmd_eq_lineEffect (CMD : Nat) (st : RdsState)
    (t : List Char) :
    process_ascii_cmd st (t.take (CMD - 1)) =
      match lineEffect CMD t with
      | none => st
      | some c => applyCmd st c := by
  unfold process_ascii_cmd lineEffect
  by_cases h1 : stripCR (t.take (CMD - 1)) = [] <;>
    by_cases h2 : (stripCR (t.take (CMD - 1))).head? = some '#' <;>
    simp [h1, h2]

/-- C6: commands in one payload are applied one per token in textual
order, each token contributing exactly its `lineEffect`; a token
whose line fails to parse contributes nothing, and every later token
is still processed — the fold never stops early. -/
theorem commands_in_order_errors_isolated (CMD : Nat) (st : RdsState)
    (payload : List Char) :
    poll_process_payload CMD st payload =
      ((lineTokens payload).filterMap (lineEffect CMD)).foldl
        applyCmd st := by
  unfold poll_process_payload
  generalize lineTokens payload = ts
  induction ts generalizing st with
  | nil => rfl
  | cons t ts ih =>
    rw [List.foldl_cons, List.filterMap_cons,
      process_ascii_cmd_eq_lineEffect CMD st t]
    cases he : lineEffect CMD t with
    | none => simp only [he]; exact ih _
    | some c => simp only [he, List.foldl_cons]; exact ih _

/-! ## C7: PS chunking and scrolling live in the GUI

Embeds minirds_gui.c lines 254-318 (`ps_chunk_text`: trim trailing
whitespace, `strtok` into words on spaces/tabs with caps of 256 words
and 64 chunks, the 511-byte copy cap; a word of at most 8 characters
becomes one space-padded chunk, a longer word is split into 7
characters plus a dash per chunk) and 321-333 (`ps_scroll_tick`:
advance `(current + 1) % num` every `PS_SCROLL_INTERVAL_MS` when the
engine runs and there is more than one chunk, calling the core's
`set_rds_ps`).  The core's `set_rds_ps` is in rds.c, not under src/,
and is modelled from the spec. -/

/-- Trailing-whitespace trim of `ps_chunk_text` (spaces, tabs,
newlines, carriage returns). -/
def trimTrailingWS (l : List Char) : List Char :=
  (l.reverse.dropWhile
    (fun c => decide (c = ' ' ∨ c = '\t' ∨ c = '\n' ∨ c = '\r'))).reverse

/-- The `strtok(copy, " \t")` word list, capped at 256 words. -/
def psWords (t : List Char) : List (List Char) :=
  ((t.splitOnP (fun c => decide (c = ' ' ∨ c = '\t'))).filter
    (· ≠ [])).take 256

/-- The chunks one word contributes: a short word is space-padded to
8 characters; a longer word repeatedly yields 7 characters plus a
dash. -/
def chunksOfWord (w : List Char) : List (List Char) :=
  if w.length ≤ PS_LENGTH then
    [w ++ List.replicate (PS_LENGTH - w.length) ' ']
  else
    (w.take (PS_LENGTH - 1) ++ ['-']) ::
      chunksOfWord (w.drop (PS_LENGTH - 1))
termination_by w.length
decreasing_by
  simp only [List.length_drop, PS_LENGTH] at *
  omega

/-- `ps_chunk_text`: cap the copied text at 511 bytes, trim, split
into words, chunk each word, cap at 64 chunks. -/
def ps_chunk_text (text : List Char) : List (List Char) :=
  ((psWords (trimTrailingWS (text.take 511))).flatMap chunksOfWord).take 64

/-- The GUI's scroll state (`g_ps_scroll` without the chunk texts). -/
structure PsScroll where
  numChunks : Nat
  currentChunk : Nat
  lastTick : Nat
deriving DecidableEq

/-- The 4-second advance interval (minirds_gui.c line 121). -/
def PS_SCROLL_INTERVAL_MS : Nat := 4000

/-- `ps_scroll_tick`: returns the new scroll state and, when an
advance fires, the index of the chunk handed to the core's
`set_rds_ps`. -/
def ps_scroll_tick (s : PsScroll) (engineRunning : Bool) (now : Nat) :
    PsScroll × Option Nat :=
  if s.numChunks ≤ 1 then (s, none)
  else if engineRunning = false then (s, none)
  else if PS_SCROLL_INTERVAL_MS ≤ now - s.lastTick then
    (⟨s.numChunks, (s.currentChunk + 1) % s.numChunks, now⟩,
     some ((s.currentChunk + 1) % s.numChunks))
  else (s, none)

/-- Modelled from the spec: the core setter `set_rds_ps` (rds.c is
not under src/).  Per §4.D it pads to the fixed 8-glyph width and
does nothing else — the core holds no scrolling state. -/
def set_rds_ps (st : RdsState) (p : List Char) : RdsState :=
  { st with ps := padTo PS_LENGTH p }

theorem chunksOfWord_length (w : List Char) :
    ∀ ch ∈ chunksOfWord w, ch.length = PS_LENGTH := by
  generalize hn : w.length = n
  induction n using Nat.strong_induction_on generalizing w with
  | _ n ih =>
    subst hn
    rw [chunksOfWord]
    by_cases h : w.length ≤ PS_LENGTH
    · rw [if_pos h]
      intro ch hch
      simp only [List.mem_singleton] at hch
      subst hch
      simp only [List.length_append, List.length_replicate]
      omega
    · rw [if_neg h]
      intro ch hch
      rcases List.mem_cons.mp hch with h1 | h1
      · subst h1
        simp only [List.length_append, List.length_take,
          List.length_singleton, PS_LENGTH] at h ⊢
        omega
      · refine ih (w.drop (PS_LENGTH - 1)).length ?_ _ rfl ch h1
        simp only [List.length_drop, PS_LENGTH] at h ⊢
        omega

/-- C7: PS scrolling is a GUI policy.  Every chunk `ps_chunk_text`
produces is exactly 8 characters (space-padded); the advance interval
is 4000 ms; when the engine runs, there is more than one chunk and
the interval has elapsed, `ps_scroll_tick` advances cyclically to the
next chunk and hands it to the core's `set_rds_ps`; with the engine
stopped it never advances; and the core setter only replaces the
8-glyph `ps` field — it keeps no cadence state and scrolls nothing. -/
theorem ps_scrolling_is_gui_policy (text : List Char) (s : PsScroll)
    (now : Nat) (hn : 1 < s.numChunks)
    (ht : PS_SCROLL_INTERVAL_MS ≤ now - s.lastTick) :
    (∀ ch ∈ ps_chunk_text text, ch.length = PS_LENGTH) ∧
    PS_SCROLL_INTERVAL_MS = 4000 ∧
    ps_scroll_tick s true now =
      (⟨s.numChunks, (s.currentChunk + 1) % s.numChunks, now⟩,
       some ((s.currentChunk + 1) % s.numChunks)) ∧
    (∀ (s' : PsScroll) (now' : Nat),
      ps_scroll_tick s' false now' = (s', none)) ∧
    (∀ (st : RdsState) (p : List Char),
      (set_rds_ps st p).ps = padTo PS_LENGTH p ∧
      (set_rds_ps st p).rt = st.rt ∧
      (set_rds_ps st p).pty = st.pty ∧
      (set_rds_ps st p).ta = st.ta ∧
      (set_rds_ps st p).rtplusTags = st.rtplusTags ∧
      (set_rds_ps st p).rtplusFlags = st.rtplusFlags) := by
  refine ⟨?_, rfl, ?_, ?_, ?_⟩
  · intro ch hch
    unfold ps_chunk_text at hch
    have hch' := List.mem_of_mem_take hch
    obtain ⟨w, _, hw⟩ := List.mem_flatMap.mp hch'
    exact chunksOfWord_length w ch hw
  · unfold ps_scroll_tick
    rw [if_neg (by omega), if_neg (by simp), if_pos ht]
  · intro s' now'
    unfold ps_scroll_tick
    by_cases h1 : s'.numChunks ≤ 1
    · rw [if_pos h1]
    · rw [if_neg h1, if_pos rfl]
  · intro st p
    exact ⟨rfl, rfl, rfl, rfl, rfl, rfl⟩

/-- Witness for C7: the text "PS Hello World" chunks into two 8-char
chunks, and a due tick at 4000 ms advances from chunk 0 to chunk 1. -/
theorem ps_scrolling_is_gui_policy_witness :
    (∀ ch ∈ ps_chunk_text
        ['H', 'e', 'l', 'l', 'o', ' ', 'W', 'o', 'r', 'l', 'd'],
      ch.length = PS_LENGTH) ∧
    ps_scroll_tick ⟨2, 0, 0⟩ true 4000 = (⟨2, 1, 4000⟩, some 1) := by
  have h := ps_scrolling_is_gui_policy
    ['H', 'e', 'l', 'l', 'o', ' ', 'W', 'o', 'r', 'l', 'd']
    ⟨2, 0, 0⟩ 4000 (by decide) (by decide)
  exact ⟨h.1, h.2.2.1⟩

/-! ## C8 / C10: RT+ file processing

Embeds minirds_gui.c lines 427-523 (`process_rtp_file`) together
with `read_file_text` (lines 353-375: files over 65536 bytes are
rejected, trailing whitespace is trimmed).  The file text is split at
the first `"||"` (strstr); the artist (before the separator, trailing
spaces trimmed) and title (after it, leading spaces skipped), each
truncated to `RT_LENGTH - 1`, are searched case-insensitively in the
current RT (trailing spaces trimmed); on the failure paths nothing is
written, otherwise only the RT+ tag tuple and flags are set.  The
core setters `set_rds_rtplus_tags` / `set_rds_rtplus_flags` are in
rds.c, not under src/, and are modelled from the spec. -/

/-- ASCII lower-casing, as C `tolower` in the C locale. -/
def asciiLower (c : Char) : Char :=
  if 'A' ≤ c ∧ c ≤ 'Z' then Char.ofNat (c.toNat + 32) else c

/-- First index `i ≤ i0 + k - 1` (scanning `k` candidates from `i0`)
satisfying `p` — the shape of the C search loops. -/
def scanFirst (p : Nat → Bool) : Nat → Nat → Option Nat
  | 0, _ => none
  | k + 1, i => if p i then some i else scanFirst p k (i + 1)

/-- `strncasecmp(hay + i, nee, nee.length) == 0`. -/
def matchesCI (hay nee : List Char) (i : Nat) : Bool :=
  decide (((hay.drop i).take nee.length).map asciiLower =
    nee.map asciiLower)

/-- The C search loop: only run for a nonempty needle no longer than
the haystack, scanning start offsets `0 .. hay.length - nee.length`,
first match wins. -/
def strncasecmpSearch (hay nee : List Char) : Option Nat :=
  if nee.length = 0 ∨ hay.length < nee.length then none
  else scanFirst (matchesCI hay nee) (hay.length - nee.length + 1) 0

/-- `strstr(text, "||")`: index of the first occurrence of `"||"`. -/
def strstrSep (text : List Char) : Option Nat :=
  if text.length < 2 then none
  else scanFirst
    (fun i => decide ((text.drop i).take 2 = ['|', '|']))
    (text.length - 1) 0

/-- Trailing-space trim (the RT copy and the artist both get one). -/
def trimTrailingSpaces (l : List Char) : List Char :=
  (l.reverse.dropWhile (fun c => decide (c = ' '))).reverse

/-- The artist field: text before the separator, trailing spaces
trimmed, truncated to `RT_LENGTH - 1`. -/
def rtpArtist (text : List Char) (sepIdx : Nat) : List Char :=
  (trimTrailingSpaces (text.take sepIdx)).take (RT_LENGTH - 1)

/-- The title field: text after the separator, leading spaces
skipped, truncated to `RT_LENGTH - 1`. -/
def rtpTitle (text : List Char) (sepIdx : Nat) : List Char :=
  ((text.drop (sepIdx + 2)).dropWhile (fun c => decide (c = ' '))).take
    (RT_LENGTH - 1)

/-- The current RT as the search haystack: the 64-byte field with
trailing spaces trimmed. -/
def rtpCurrentRT (st : RdsState) : List Char :=
  trimTrailingSpaces (st.rt.take RT_LENGTH)

/-- Modelled from the spec: the core setter `set_rds_rtplus_tags`
(rds.c is not under src/).  Per §4.D and design note it stores the
explicit 6-tuple it is given; it infers nothing. -/
def set_rds_rtplus_tags (st : RdsState) (tags : List Nat) : RdsState :=
  { st with rtplusTags := tags }

/-- Modelled from the spec: the core setter `set_rds_rtplus_flags`
(rds.c is not under src/): stores the given running/toggle flags. -/
def set_rds_rtplus_flags (st : RdsState) (flags : Nat) : RdsState :=
  { st with rtplusFlags := flags }

/-- `process_rtp_file`, including `read_file_text`'s size cap and
whitespace trim. -/
def process_rtp_file (st : RdsState) (fileRaw : List Char) : RdsState :=
  if 65536 < fileRaw.length then st
  else if trimTrailingWS fileRaw = [] then st
  else
    match strstrSep (trimTrailingWS fileRaw) with
    | none => st
    | some sepIdx =>
      if strncasecmpSearch (rtpCurrentRT st)
            (rtpArtist (trimTrailingWS fileRaw) sepIdx) = none ∧
         strncasecmpSearch (rtpCurrentRT st)
            (rtpTitle (trimTrailingWS fileRaw) sepIdx) = none then st
      else
        set_rds_rtplus_flags
          (set_rds_rtplus_tags st
            [(if (strncasecmpSearch (rtpCurrentRT st)
                (rtpArtist (trimTrailingWS fileRaw) sepIdx)).isSome
              then 4 else 0),
             (strncasecmpSearch (rtpCurrentRT st)
                (rtpArtist (trimTrailingWS fileRaw) sepIdx)).getD 0,
             (if (strncasecmpSearch (rtpCurrentRT st)
                (rtpArtist (trimTrailingWS fileRaw) sepIdx)).isSome
              then (rtpArtist (trimTrailingWS fileRaw) sepIdx).length - 1
              else 0),
             (if (strncasecmpSearch (rtpCurrentRT st)
                (rtpTitle (trimTrailingWS fileRaw) sepIdx)).isSome
              then 1 else 0),
             (strncasecmpSearch (rtpCurrentRT st)
                (rtpTitle (trimTrailingWS fileRaw) sepIdx)).getD 0,
             (if (strncasecmpSearch (rtpCurrentRT st)
                (rtpTitle (trimTrailingWS fileRaw) sepIdx)).isSome
              then (rtpTitle (trimTrailingWS fileRaw) sepIdx).length - 1
              else 0)]) 3

theorem scanFirst_spec (p : Nat → Bool) (k : Nat) :
    ∀ i j, scanFirst p k i = some j →
      p j = true ∧ i ≤ j ∧ j < i + k ∧
      ∀ m, i ≤ m → m < j → p m = false := by
  induction k with
  | zero =>
    intro i j h
    simp [scanFirst] at h
  | succ k ih =>
    intro i j h
    unfold scanFirst at h
    by_cases hp : p i = true
    · rw [if_pos hp] at h
      injection h with h
      subst h
      exact ⟨hp, le_refl _, by omega, fun m h1 h2 => absurd h1 (by omega)⟩
    · rw [if_neg hp] at h
      obtain ⟨h1, h2, h3, h4⟩ := ih (i + 1) j h
      refine ⟨h1, by omega, by omega, ?_⟩
      intro m hm1 hm2
      by_cases hmi : m = i
      · subst hmi
        revert hp
        cases p m <;> simp
      · exact h4 m (by omega) hm2

theorem strncasecmpSearch_first (hay nee : List Char) (j : Nat)
    (h : strncasecmpSearch hay nee = some j) :
    matchesCI hay nee j = true ∧
    ∀ m < j, matchesCI hay nee m = false := by
  unfold strncasecmpSearch at h
  by_cases hc : nee.length = 0 ∨ hay.length < nee.length
  · rw [if_pos hc] at h
    exact absurd h (by simp)
  · rw [if_neg hc] at h
    obtain ⟨h1, _, _, h4⟩ := scanFirst_spec _ _ _ _ h
    exact ⟨h1, fun m hm => h4 m (by omega) hm⟩

/-- C8: when both the artist and the title are found, the RT+ tuple
the GUI passes to the core is derived from the *first*
case-insensitive occurrence of each in the current RT — type 4
(ITEM.ARTIST) with the artist's position and length-1, then type 1
(ITEM.TITLE) with the title's — and the core setter stores exactly
the explicit tuple it is given. -/
theorem rtp_tags_from_ci_search (st : RdsState) (raw : List Char)
    (sepIdx ai ti : Nat)
    (hlen : raw.length ≤ 65536) (hne : trimTrailingWS raw ≠ [])
    (hsep : strstrSep (trimTrailingWS raw) = some sepIdx)
    (hap : strncasecmpSearch (rtpCurrentRT st)
      (rtpArtist (trimTrailingWS raw) sepIdx) = some ai)
    (htp : strncasecmpSearch (rtpCurrentRT st)
      (rtpTitle (trimTrailingWS raw) sepIdx) = some ti) :
    (process_rtp_file st raw).rtplusTags =
      [4, ai, (rtpArtist (trimTrailingWS raw) sepIdx).length - 1,
       1, ti, (rtpTitle (trimTrailingWS raw) sepIdx).length - 1] ∧
    (process_rtp_file st raw).rtplusFlags = 3 ∧
    matchesCI (rtpCurrentRT st)
      (rtpArtist (trimTrailingWS raw) sepIdx) ai = true ∧
    (∀ m < ai, matchesCI (rtpCurrentRT st)
      (rtpArtist (trimTrailingWS raw) sepIdx) m = false) ∧
    matchesCI (rtpCurrentRT st)
      (rtpTitle (trimTrailingWS raw) sepIdx) ti = true ∧
    (∀ m < ti, matchesCI (rtpCurrentRT st)
      (rtpTitle (trimTrailingWS raw) sepIdx) m = false) ∧
    (∀ (st' : RdsState) (tags : List Nat),
      (set_rds_rtplus_tags st' tags).rtplusTags = tags) := by
  have ha := strncasecmpSearch_first _ _ _ hap
  have ht := strncasecmpSearch_first _ _ _ htp
  have hrun : process_rtp_file st raw =
      set_rds_rtplus_flags
        (set_rds_rtplus_tags st
          [4, ai, (rtpArtist (trimTrailingWS raw) sepIdx).length - 1,
           1, ti, (rtpTitle (trimTrailingWS raw) sepIdx).length - 1])
        3 := by
    unfold process_rtp_file
    rw [if_neg (by omega), if_neg hne, hsep]
    dsimp only
    rw [hap, htp]
    simp
  rw [hrun]
  exact ⟨rfl, rfl, ha.1, ha.2, ht.1, ht.2, fun st' tags => rfl⟩

/-- Witness for C8: current RT "Queen - Song", file "queen || song";
the artist is found at 0 (length tag 4), the title at 8 (length tag
3). -/
theorem rtp_tags_from_ci_search_witness :
    (process_rtp_file
        ⟨[], ['Q', 'u', 'e', 'e', 'n', ' ', '-', ' ', 'S', 'o', 'n', 'g'],
         0, false, [], 0⟩
        ['q', 'u', 'e', 'e', 'n', ' ', '|', '|', ' ',
         's', 'o', 'n', 'g']).rtplusTags = [4, 0, 4, 1, 8, 3] := by
  have h := rtp_tags_from_ci_search
    ⟨[], ['Q', 'u', 'e', 'e', 'n', ' ', '-', ' ', 'S', 'o', 'n', 'g'],
     0, false, [], 0⟩
    ['q', 'u', 'e', 'e', 'n', ' ', '|', '|', ' ', 's', 'o', 'n', 'g']
    6 0 8 (by decide) (by decide) (by decide) (by decide) (by decide)
  rw [h.1]
  decide

/-- C10: RT+ file processing is all-or-nothing and never touches RT —
the `rt` and `ps` fields survive unconditionally; a file without the
`"||"` separator changes nothing; if neither artist nor title occurs
in the current RT, nothing changes; and when tags are set with only
the title matched, the artist slot is the dummy `(0, 0, 0)` while the
title gets type 1, its found position, and its length minus one, with
the flags set to 3. -/
theorem rtp_all_or_nothing (st : RdsState) (raw : List Char) :
    (process_rtp_file st raw).rt = st.rt ∧
    (process_rtp_file st raw).ps = st.ps ∧
    (strstrSep (trimTrailingWS raw) = none →
      process_rtp_file st raw = st) ∧
    (∀ sepIdx, strstrSep (trimTrailingWS raw) = some sepIdx →
      strncasecmpSearch (rtpCurrentRT st)
        (rtpArtist (trimTrailingWS raw) sepIdx) = none →
      strncasecmpSearch (rtpCurrentRT st)
        (rtpTitle (trimTrailingWS raw) sepIdx) = none →
      process_rtp_file st raw = st) ∧
    (∀ sepIdx ti, raw.length ≤ 65536 → trimTrailingWS raw ≠ [] →
      strstrSep (trimTrailingWS raw) = some sepIdx →
      strncasecmpSearch (rtpCurrentRT st)
        (rtpArtist (trimTrailingWS raw) sepIdx) = none →
      strncasecmpSearch (rtpCurrentRT st)
        (rtpTitle (trimTrailingWS raw) sepIdx) = some ti →
      (process_rtp_file st raw).rtplusTags =
        [0, 0, 0, 1, ti,
         (rtpTitle (trimTrailingWS raw) sepIdx).length - 1] ∧
      (process_rtp_file st raw).rtplusFlags = 3) := by
  refine ⟨?_, ?_, ?_, ?_, ?_⟩
  · unfold process_rtp_file set_rds_rtplus_flags set_rds_rtplus_tags
    split
    · rfl
    · split
      · rfl
      · split
        · rfl
        · split
          · rfl
          · rfl
  · unfold process_rtp_file set_rds_rtplus_flags set_rds_rtplus_tags
    split
    · rfl
    · split
      · rfl
      · split
        · rfl
        · split
          · rfl
          · rfl
  · intro hsep
    unfold process_rtp_file
    split
    · rfl
    · split
      · rfl
      · rw [hsep]
  · intro sepIdx hsep hna hnt
    unfold process_rtp_file
    split
    · rfl
    · split
      · rfl
      · rw [hsep]
        dsimp only
        rw [if_pos ⟨hna, hnt⟩]
  · intro sepIdx ti hlen hne hsep hna htp
    have hrun : process_rtp_file st raw =
        set_rds_rtplus_flags
          (set_rds_rtplus_tags st
            [0, 0, 0, 1, ti,
             (rtpTitle (trimTrailingWS raw) sepIdx).length - 1]) 3 := by
      unfold process_rtp_file
      rw [if_neg (by omega), if_neg hne, hsep]
      dsimp only
      rw [hna, htp]
      simp
    rw [hrun]
    exact ⟨rfl, rfl⟩

/-- Witness for C10: a file without the separator leaves the store
unchanged. -/
theorem rtp_all_or_nothing_witness :
    process_rtp_file ⟨[], [], 0, false, [], 0⟩
        ['n', 'o', ' ', 's', 'e', 'p'] =
      ⟨[], [], 0, false, [], 0⟩ :=
  (rtp_all_or_nothing ⟨[], [], 0, false, [], 0⟩
    ['n', 'o', ' ', 's', 'e', 'p']).2.2.1 (by decide)

end MiniRDS
